import Mathlib

/-!
Verification development for the podcast feed downloader (`src/main.py`).

The Python program is embedded shallowly:
* `parsed_datetime`, `datetime_in_utc`, `md5sum`, `safe_filename`,
  `download` and `download_feed` are translated into pure Lean functions;
* the filesystem is an explicit association list from paths to byte lists;
* the HTTP layer is abstracted into a `Resp` value describing what the
  transport delivered (non-success status, or a list of chunks optionally
  cut short by a connection error);
* Python exceptions become `Except PyErr` results.
-/

/-- The Python exceptions the embedded code can raise.
`waitEmpty` models the `ValueError` raised by `asyncio.wait([])` on an
empty task collection; `overflowError` models the `OverflowError` raised
by `datetime` arithmetic leaving the year range 1..9999; `typeError`
models subtracting `None` from a naive datetime. -/
inductive PyErr where
  | valueError
  | keyError
  | typeError
  | overflowError
  | waitEmpty
  deriving DecidableEq, Repr

instance {ε α : Type} [DecidableEq ε] [DecidableEq α] : DecidableEq (Except ε α) :=
  fun a b =>
  match a, b with
  | .ok x, .ok y =>
    if h : x = y then isTrue (by rw [h]) else isFalse (by intro hEq; cases hEq; exact h rfl)
  | .error x, .error y =>
    if h : x = y then isTrue (by rw [h]) else isFalse (by intro hEq; cases hEq; exact h rfl)
  | .ok _, .error _ => isFalse (by intro hEq; cases hEq)
  | .error _, .ok _ => isFalse (by intro hEq; cases hEq)

/-- `s.rsplit(sep, maxsplit=1)` when the separator occurs, i.e. the parts
before and after the LAST occurrence of `sep`; `none` when `sep` does not
occur (Python returns the one-element list `[s]`, whose unpacking into two
variables raises `ValueError`). -/
def rsplitOnce (s : String) (sep : Char) : Option (String × String) :=
  match s.data.reverse.dropWhile (fun c => ¬ (c = sep)) with
  | [] => none
  | _ :: beforeRev =>
    some (String.mk beforeRev.reverse,
          String.mk ((s.data.reverse.takeWhile (fun c => ¬ (c = sep))).reverse))

/-- Split at the FIRST occurrence of `sep` (Python `s.split(sep, 1)` with a
hit), `none` when absent. -/
def splitFirstList (l : List Char) (sep : Char) : Option (List Char × List Char) :=
  match l.dropWhile (fun c => ¬ (c = sep)) with
  | [] => none
  | _ :: after => some (l.takeWhile (fun c => ¬ (c = sep)), after)

/-- The module-level `TIMEZONES` table of `src/main.py`, with each
`timezone(timedelta(hours=h))` rendered as its UTC offset in minutes. -/
def TIMEZONES : List (String × Int) :=
  [("UTC", 0),
   ("CET", 60), ("CEST", 120),
   ("GMT", 0),
   ("EST", -300), ("EDT", -240),
   ("PST", -480), ("PDT", -420)]

/-- A Python `datetime.datetime`: calendar fields plus an optional fixed
UTC offset in minutes (`none` = naive, `some o` = `tzinfo` with
`utcoffset()` of `o` minutes).  Microseconds are always zero in this
program (`%S` parsing yields whole seconds) and are omitted. -/
structure PyDateTime where
  year : Nat
  month : Nat
  day : Nat
  hour : Nat
  minute : Nat
  second : Nat
  tz : Option Int
  deriving DecidableEq, Repr

def digitVal (c : Char) : Nat := c.toNat - '0'.toNat

/-- Greedy match of one or two decimal digits, as the CPython `strptime`
regexes for `%d`/`%H`/`%M`/`%S` do.  (Those regexes are bounded
alternations; since in the format every such field is followed by a
non-digit literal, greedy matching without backtracking accepts exactly
the same strings.) -/
def takeUpTo2Digits : List Char → Option (Nat × List Char)
  | [] => none
  | [c] => if c.isDigit then some (digitVal c, []) else none
  | c1 :: c2 :: rest =>
    if c1.isDigit then
      if c2.isDigit then some (digitVal c1 * 10 + digitVal c2, rest)
      else some (digitVal c1, c2 :: rest)
    else none

/-- Exactly four decimal digits (`%Y` in CPython strptime). -/
def take4Digits : List Char → Option (Nat × List Char)
  | c1 :: c2 :: c3 :: c4 :: rest =>
    if c1.isDigit && c2.isDigit && c3.isDigit && c4.isDigit then
      some (((digitVal c1 * 10 + digitVal c2) * 10 + digitVal c3) * 10 + digitVal c4, rest)
    else none
  | _ => none

def expectChar (c : Char) : List Char → Option (List Char)
  | [] => none
  | x :: rest => if x = c then some rest else none

/-- The abbreviated day names accepted by `%a`.  (CPython matches them
case-insensitively; feed dates use the standard capitalisation modelled
here.)  The matched name only sets the unchecked weekday field, so the
parser merely consumes it. -/
def parseDayName (l : List Char) : Option (List Char) :=
  match l with
  | c1 :: c2 :: c3 :: rest =>
    if ["Mon", "Tue", "Wed", "Thu", "Fri", "Sat", "Sun"].contains (String.mk [c1, c2, c3]) then
      some rest
    else none
  | _ => none

/-- The abbreviated month names accepted by `%b`, yielding the month
number. -/
def parseMonthName (l : List Char) : Option (Nat × List Char) :=
  match l with
  | c1 :: c2 :: c3 :: rest =>
    match ["Jan", "Feb", "Mar", "Apr", "May", "Jun",
           "Jul", "Aug", "Sep", "Oct", "Nov", "Dec"].indexOf? (String.mk [c1, c2, c3]) with
    | some i => some (i + 1, rest)
    | none => none
  | _ => none

def isLeapYear (y : Nat) : Bool :=
  y % 4 = 0 && (y % 100 ≠ 0 || y % 400 = 0)

def daysInMonth (y m : Nat) : Nat :=
  if m = 2 then (if isLeapYear y then 29 else 28)
  else if [4, 6, 9, 11].contains m then 30
  else 31

/-- Field validation performed by the `datetime` constructor: year in
1..9999 (9999 is automatic here since `%Y` matches exactly four digits),
day within the month, hour below 24, minute and second below 60. -/
def validFields (y m d h mi s : Nat) : Bool :=
  1 ≤ y && 1 ≤ d && d ≤ daysInMonth y m && h ≤ 23 && mi ≤ 59 && s ≤ 59

/-- Parser for the datetime part `"%a, %d %b %Y %H:%M:%S"`, returning the
unconsumed remainder.  Literal whitespace in the format is modelled as a
single space (CPython accepts whitespace runs; feed dates use single
spaces). -/
def parseCore (l : List Char) : Option (PyDateTime × List Char) := do
  let r1 ← parseDayName l
  let r2 ← expectChar ',' r1
  let r3 ← expectChar ' ' r2
  let (d, r4) ← takeUpTo2Digits r3
  let r5 ← expectChar ' ' r4
  let (m, r6) ← parseMonthName r5
  let r7 ← expectChar ' ' r6
  let (y, r8) ← take4Digits r7
  let r9 ← expectChar ' ' r8
  let (h, r10) ← takeUpTo2Digits r9
  let r11 ← expectChar ':' r10
  let (mi, r12) ← takeUpTo2Digits r11
  let r13 ← expectChar ':' r12
  let (s, r14) ← takeUpTo2Digits r13
  if validFields y m d h mi s then
    some (⟨y, m, d, h, mi, s, none⟩, r14)
  else none

/-- `datetime.strptime(ts, "%a, %d %b %Y %H:%M:%S")` as an `Option`
(`none` = `ValueError`). -/
def strptimeNoTz (ts : String) : Option PyDateTime :=
  match parseCore ts.data with
  | some (dt, []) => some dt
  | _ => none

/-- The `%z` directive: `Z`, or a sign, two hour digits, an optional
colon and two minute digits.  Offsets of 24 hours or more make the
`timezone` constructor raise `ValueError`, which `strptime` propagates,
so they are parse failures here as well.  (Offsets with trailing seconds
are not modelled; none of the claims involve them.) -/
def parseOffset (s : String) : Option Int :=
  match s.data with
  | ['Z'] => some 0
  | [sg, h1, h2, m1, m2] =>
    if (sg = '+' || sg = '-') && h1.isDigit && h2.isDigit && m1.isDigit && m2.isDigit then
      let h := digitVal h1 * 10 + digitVal h2
      let m := digitVal m1 * 10 + digitVal m2
      if h ≤ 23 && m ≤ 59 then
        some ((if sg = '-' then -1 else 1) * (h * 60 + m : Nat))
      else none
    else none
  | [sg, h1, h2, cl, m1, m2] =>
    if (sg = '+' || sg = '-') && h1.isDigit && h2.isDigit && cl = ':'
        && m1.isDigit && m2.isDigit then
      let h := digitVal h1 * 10 + digitVal h2
      let m := digitVal m1 * 10 + digitVal m2
      if h ≤ 23 && m ≤ 59 then
        some ((if sg = '-' then -1 else 1) * (h * 60 + m : Nat))
      else none
    else none
  | _ => none

/-- `datetime.strptime(ts, "%a, %d %b %Y %H:%M:%S %z")` as an `Option`.
Because an offset matched by `%z` never contains a space, a whole-string
match decomposes uniquely at the LAST space of the input, so the parse is
implemented by splitting there and running the datetime parser on the
left part and the offset parser on the right part. -/
def strptimeTz (ts : String) : Option PyDateTime :=
  match rsplitOnce ts ' ' with
  | none => none
  | some (l, r) => do
    let dt ← strptimeNoTz l
    let off ← parseOffset r
    some { dt with tz := some off }

/-- `parsed_datetime` from `src/main.py`: numeric-offset RFC-822 parse
first; on `ValueError`, rsplit off the trailing token, parse the rest
without a timezone, and look the token up in `TIMEZONES` (a missing key
raises `KeyError`). -/
def parsed_datetime (timestamp : String) : Except PyErr PyDateTime :=
  match strptimeTz timestamp with
  | some dt => .ok dt
  | none =>
    match rsplitOnce timestamp ' ' with
    | none => .error .valueError
    | some (rest, tzName) =>
      match strptimeNoTz rest with
      | none => .error .valueError
      | some dt =>
        match TIMEZONES.lookup tzName with
        | none => .error .keyError
        | some off => .ok { dt with tz := some off }

/-! ## Calendar arithmetic

`datetime - timedelta` in Python performs exact proleptic-Gregorian
arithmetic, raising `OverflowError` when the result leaves years 1..9999.
It is embedded through the standard days-from-civil / civil-from-days
conversions (floor-division form). -/

/-- Day number of a civil date, with day 0 = 1970-01-01. -/
def daysFromCivil (y m d : Int) : Int :=
  let y' := if m ≤ 2 then y - 1 else y
  let era := Int.fdiv y' 400
  let yoe := y' - era * 400
  let mp := Int.fmod (m + 9) 12
  let doy := Int.fdiv (153 * mp + 2) 5 + d - 1
  let doe := yoe * 365 + Int.fdiv yoe 4 - Int.fdiv yoe 100 + doy
  era * 146097 + doe - 719468

/-- Civil date of a day number (inverse of `daysFromCivil`). -/
def civilFromDays (z0 : Int) : Int × Int × Int :=
  let z := z0 + 719468
  let era := Int.fdiv z 146097
  let doe := z - era * 146097
  let yoe := Int.fdiv (doe - Int.fdiv doe 1460 + Int.fdiv doe 36524 - Int.fdiv doe 146096) 365
  let y := yoe + era * 400
  let doy := doe - (365 * yoe + Int.fdiv yoe 4 - Int.fdiv yoe 100)
  let mp := Int.fdiv (5 * doy + 2) 153
  let d := doy - Int.fdiv (153 * mp + 2) 5 + 1
  let m := mp + (if mp < 10 then 3 else -9)
  (if m ≤ 2 then y + 1 else y, m, d)

/-- `datetime_in_utc` from `src/main.py`:
`timestamp.replace(tzinfo=None) - timestamp.utcoffset()`.
On a naive datetime `utcoffset()` is `None` and the subtraction raises
`TypeError`; a result outside years 1..9999 raises `OverflowError`. -/
def datetime_in_utc (timestamp : PyDateTime) : Except PyErr PyDateTime :=
  match timestamp.tz with
  | none => .error .typeError
  | some off =>
    let total : Int :=
      daysFromCivil timestamp.year timestamp.month timestamp.day * 1440
        + timestamp.hour * 60 + timestamp.minute - off
    let days := Int.fdiv total 1440
    let remN := (Int.fmod total 1440).toNat
    let (y, m, d) := civilFromDays days
    if 1 ≤ y && y ≤ 9999 then
      .ok ⟨y.toNat, m.toNat, d.toNat, remN / 60, remN % 60, timestamp.second, none⟩
    else .error .overflowError

/-- Two fixed-width decimal digits (`%02d`; faithful for values below
100, which field validation guarantees). -/
def pad2 (n : Nat) : List Char :=
  [Nat.digitChar (n / 10 % 10), Nat.digitChar (n % 10)]

/-- Four fixed-width decimal digits (`%04d`; faithful for values below
10000, which the year bound guarantees). -/
def pad4 (n : Nat) : List Char :=
  [Nat.digitChar (n / 1000 % 10), Nat.digitChar (n / 100 % 10),
   Nat.digitChar (n / 10 % 10), Nat.digitChar (n % 10)]

/-- `datetime.isoformat(sep=" ")` for a naive datetime with zero
microseconds: `YYYY-MM-DD HH:MM:SS`. -/
def isoformatSp (dt : PyDateTime) : String :=
  String.mk (pad4 dt.year ++ '-' :: pad2 dt.month ++ '-' :: pad2 dt.day
    ++ ' ' :: pad2 dt.hour ++ ':' :: pad2 dt.minute ++ ':' :: pad2 dt.second)

/-- The numeric rendering `±HHMM` of a whole-minute UTC offset, i.e. the
"numeric-offset equivalent" of a named timezone. -/
def renderOffset (off : Int) : String :=
  String.mk ((if off < 0 then '-' else '+')
    :: (pad2 (off.natAbs / 60) ++ pad2 (off.natAbs % 60)))

/-! ## MD5 (`hashlib.md5(...).hexdigest()` on the UTF-8 encoding) -/

/-- UTF-8 encoding of one scalar value (Python `str.encode()`). -/
def utf8EncodeChar (c : Char) : List Nat :=
  let n := c.toNat
  if n < 0x80 then [n]
  else if n < 0x800 then
    [0xC0 ||| (n >>> 6), 0x80 ||| (n &&& 0x3F)]
  else if n < 0x10000 then
    [0xE0 ||| (n >>> 12), 0x80 ||| ((n >>> 6) &&& 0x3F), 0x80 ||| (n &&& 0x3F)]
  else
    [0xF0 ||| (n >>> 18), 0x80 ||| ((n >>> 12) &&& 0x3F),
     0x80 ||| ((n >>> 6) &&& 0x3F), 0x80 ||| (n &&& 0x3F)]

def utf8Encode (s : String) : List Nat :=
  s.data.flatMap utf8EncodeChar

/-- Per-round left-rotation amounts of MD5. -/
def md5Shifts : List Nat :=
  [7, 12, 17, 22, 7, 12, 17, 22, 7, 12, 17, 22, 7, 12, 17, 22,
   5, 9, 14, 20, 5, 9, 14, 20, 5, 9, 14, 20, 5, 9, 14, 20,
   4, 11, 16, 23, 4, 11, 16, 23, 4, 11, 16, 23, 4, 11, 16, 23,
   6, 10, 15, 21, 6, 10, 15, 21, 6, 10, 15, 21, 6, 10, 15, 21]

/-- The MD5 sine-derived constants `K[i] = floor(2^32 * |sin(i + 1)|)`. -/
def md5K : List Nat :=
  [0xd76aa478, 0xe8c7b756, 0x242070db, 0xc1bdceee,
   0xf57c0faf, 0x4787c62a, 0xa8304613, 0xfd469501,
   0x698098d8, 0x8b44f7af, 0xffff5bb1, 0x895cd7be,
   0x6b901122, 0xfd987193, 0xa679438e, 0x49b40821,
   0xf61e2562, 0xc040b340, 0x265e5a51, 0xe9b6c7aa,
   0xd62f105d, 0x02441453, 0xd8a1e681, 0xe7d3fbc8,
   0x21e1cde6, 0xc33707d6, 0xf4d50d87, 0x455a14ed,
   0xa9e3e905, 0xfcefa3f8, 0x676f02d9, 0x8d2a4c8a,
   0xfffa3942, 0x8771f681, 0x6d9d6122, 0xfde5380c,
   0xa4beea44, 0x4bdecfa9, 0xf6bb4b60, 0xbebfbc70,
   0x289b7ec6, 0xeaa127fa, 0xd4ef3085, 0x04881d05,
   0xd9d4d039, 0xe6db99e5, 0x1fa27cf8, 0xc4ac5665,
   0xf4292244, 0x432aff97, 0xab9423a7, 0xfc93a039,
   0x655b59c3, 0x8f0ccc92, 0xffeff47d, 0x85845dd1,
   0x6fa87e4f, 0xfe2ce6e0, 0xa3014314, 0x4e0811a1,
   0xf7537e82, 0xbd3af235, 0x2ad7d2bb, 0xeb86d391]

def rotl32 (x n : Nat) : Nat :=
  ((x <<< n) ||| (x >>> (32 - n))) % 4294967296

def bnot32 (x : Nat) : Nat := x ^^^ 0xFFFFFFFF

/-- MD5 padding: `0x80`, zeros to 56 mod 64, then the message bit length
as eight little-endian bytes. -/
def md5Pad (msg : List Nat) : List Nat :=
  let len := msg.length
  let zeros := (56 + 64 - (len + 1) % 64) % 64
  let bitLen := (len * 8) % 18446744073709551616
  msg ++ 0x80 :: List.replicate zeros 0
    ++ (List.range 8).map (fun i => (bitLen >>> (8 * i)) % 256)

/-- The 16 little-endian 32-bit words of one 64-byte block. -/
def md5Words (block : List Nat) : List Nat :=
  (List.range 16).map (fun j =>
    block.getD (4 * j) 0 + 256 * block.getD (4 * j + 1) 0
      + 65536 * block.getD (4 * j + 2) 0 + 16777216 * block.getD (4 * j + 3) 0)

/-- One MD5 round `i` on state `(a, b, c, d)` with message words `m`. -/
def md5Round (m : List Nat) (st : Nat × Nat × Nat × Nat) (i : Nat) :
    Nat × Nat × Nat × Nat :=
  let (a, b, c, d) := st
  let (f, g) :=
    if i < 16 then ((b &&& c) ||| (bnot32 b &&& d), i)
    else if i < 32 then ((d &&& b) ||| (bnot32 d &&& c), (5 * i + 1) % 16)
    else if i < 48 then (b ^^^ c ^^^ d, (3 * i + 5) % 16)
    else (c ^^^ (b ||| bnot32 d), (7 * i) % 16)
  let f' := (f + a + md5K.getD i 0 + m.getD g 0) % 4294967296
  (d, (b + rotl32 f' (md5Shifts.getD i 0)) % 4294967296, b, c)

def md5Block (st : Nat × Nat × Nat × Nat) (block : List Nat) :
    Nat × Nat × Nat × Nat :=
  let m := md5Words block
  let (a, b, c, d) := (List.range 64).foldl (md5Round m) st
  ((st.1 + a) % 4294967296, (st.2.1 + b) % 4294967296,
   (st.2.2.1 + c) % 4294967296, (st.2.2.2 + d) % 4294967296)

/-- Split a byte list into 64-byte blocks.  The fuel argument (any bound
on the number of blocks, decremented once per block) makes the recursion
structural. -/
def toBlocksFuel : Nat → List Nat → List (List Nat)
  | 0, _ => []
  | _, [] => []
  | fuel + 1, b :: rest => (b :: rest).take 64 :: toBlocksFuel fuel ((b :: rest).drop 64)

/-- Split a byte list into 64-byte blocks (the list length bounds the
number of blocks). -/
def toBlocks (l : List Nat) : List (List Nat) :=
  toBlocksFuel l.length l

/-- Lowercase hex rendering of one byte. -/
def hexByte (b : Nat) : List Char :=
  [Nat.digitChar (b / 16 % 16), Nat.digitChar (b % 16)]

/-- Little-endian lowercase hex rendering of a 32-bit word. -/
def word32Hex (x : Nat) : List Char :=
  hexByte (x % 256) ++ hexByte ((x >>> 8) % 256)
    ++ hexByte ((x >>> 16) % 256) ++ hexByte ((x >>> 24) % 256)

/-- `md5sum` from `src/main.py`:
`hashlib.md5(input.encode()).hexdigest()`. -/
def md5sum (input : String) : String :=
  let st := (toBlocks (md5Pad (utf8Encode input))).foldl md5Block
    (0x67452301, 0xefcdab89, 0x98badcfe, 0x10325476)
  String.mk (word32Hex st.1 ++ word32Hex st.2.1 ++ word32Hex st.2.2.1 ++ word32Hex st.2.2.2)

/-- `safe_filename`'s `additional_chars`:
space, hyphen, underscore, single and double quote, colon, parentheses,
square brackets and curly braces. -/
def additional_chars : List Char :=
  [' ', '-', '_', '\'', '\"', ':', '(', ')', '[', ']', '\x7b', '\x7d']

/-- The character predicate of `safe_filename`: `c.isalnum() or
c in additional_chars`.  (Python's `isalnum` covers all Unicode
letters/digits; the model uses the ASCII classification, which agrees on
every character relevant to the path-separator and control-character
guarantees.) -/
def keepChar (c : Char) : Bool :=
  c.isAlphanum || additional_chars.contains c

/-- `safe_filename` from `src/main.py`: keep exactly the characters that
are alphanumeric or in the fixed allow-list. -/
def safe_filename (filename : String) : String :=
  String.mk (filename.data.filter keepChar)

/-! ## URL path and target filename -/

/-- Characters allowed in a URL scheme after the leading letter. -/
def schemeChar (c : Char) : Bool :=
  c.isAlphanum || c = '+' || c = '-' || c = '.'

/-- `urllib.parse.urlparse(url).path`: strip a valid `scheme:`, strip a
`//netloc` up to the next `/`, `?` or `#`, then drop the fragment (first
`#`) and the query (first `?`).  (The `;params` split of the last path
segment performed by `urlparse` is not modelled; no claim involves
parameters.) -/
def pyUrlparsePath (url : String) : String :=
  let l := url.data
  let afterScheme :=
    match splitFirstList l ':' with
    | some (sch, rest) =>
      match sch with
      | [] => l
      | c :: cs => if c.isAlpha && cs.all schemeChar then rest else l
    | none => l
  let afterNetloc :=
    match afterScheme with
    | '/' :: '/' :: rest => rest.dropWhile (fun c => ¬ (c = '/' || c = '?' || c = '#'))
    | _ => afterScheme
  let noFrag :=
    match splitFirstList afterNetloc '#' with
    | some (before, _) => before
    | none => afterNetloc
  let noQuery :=
    match splitFirstList noFrag '?' with
    | some (before, _) => before
    | none => noFrag
  String.mk noQuery

/-- `urlparse(enclosure_url).path.rsplit(".", maxsplit=1)[-1]`: the part
of the URL path after its last period, or the whole path when it
contains no period. -/
def fileSuffixOf (enclosureUrl : String) : String :=
  match rsplitOnce (pyUrlparsePath enclosureUrl) '.' with
  | some (_, suf) => suf
  | none => pyUrlparsePath enclosureUrl

/-- The `elements` tuple of `download_feed`, joined with `" - "`:
`published_at.isoformat(sep=" ") + "Z"`, `md5sum(guid)`, the (already
truncated) podcast name and episode title. -/
def elementsJoined (published : PyDateTime) (guid podName title : String) : String :=
  isoformatSp published ++ "Z" ++ " - " ++ md5sum guid ++ " - " ++ podName ++ " - " ++ title

/-- `basename` in `download_feed`. -/
def basenameOf (published : PyDateTime) (guid podName title : String) : String :=
  safe_filename (elementsJoined published guid podName title)

/-- `target_filename` in `download_feed`: `basename + "." + file_suffix`. -/
def targetFilenameOf (published : PyDateTime) (guid podName title enclosureUrl : String) :
    String :=
  basenameOf published guid podName title ++ "." ++ fileSuffixOf enclosureUrl

/-! ## Filesystem and the downloader -/

/-- The filesystem: a finite map from paths to byte contents, as an
association list (later entries shadowed by earlier ones). -/
def FS : Type := List (String × List Nat)

def FS.lookup : FS → String → Option (List Nat)
  | [], _ => none
  | (q, v) :: rest, p => if q = p then some v else FS.lookup rest p

def FS.remove : FS → String → FS
  | [], _ => []
  | (q, v) :: rest, p => if q = p then FS.remove rest p else (q, v) :: FS.remove rest p

/-- Create or truncate-and-write a file (`open(path, "wb")` plus the
writes). -/
def FS.write (fs : FS) (p : String) (v : List Nat) : FS :=
  (p, v) :: FS.remove fs p

/-- `os.rename(src, dst)`.  (A missing source raises in Python; the
embedded downloader only renames a file it has just written, so that
branch is unreachable and modelled as a no-op.) -/
def FS.rename (fs : FS) (src dst : String) : FS :=
  match FS.lookup fs src with
  | some v => FS.write (FS.remove fs src) dst v
  | none => fs

/-- What the HTTP transport delivers for one request:
* `statusError` — a non-success status, turned into an
  `aiohttp.ClientResponseError` on entering `session.get` because the
  session is created with `raise_for_status=True`;
* `stream chunks complete` — the body chunks actually received
  (as iterated by `response.content.iter_chunked`), with
  `complete = false` when a transport error cut the stream short. -/
inductive Resp where
  | statusError
  | stream (chunks : List (List Nat)) (complete : Bool)
  deriving DecidableEq, Repr

/-- Observable progress-bar output of one download: the `tqdm` bar
construction, its per-chunk updates, and the final
`bar.set_description(target)`. -/
inductive Ev where
  | barCreate (desc : String) (total : Option Int)
  | barUpdate (n : Nat)
  | barSetDesc (desc : String)
  deriving DecidableEq, Repr

/-- Result of one `download` coroutine: the filesystem afterwards,
whether the rename to the final target happened, whether an uncaught
exception propagated out of the coroutine (a mid-stream transport error
is not an `aiohttp.ClientResponseError`, so the `except` clause does not
catch it), and the emitted progress output. -/
structure DlResult where
  fs : FS
  ok : Bool
  raised : Bool
  events : List Ev

/-- `download` from `src/main.py`, for one delivered response:
* on a non-success status, `session.get` raises before the progress file
  is even opened; the `except aiohttp.ClientResponseError: pass` swallows
  it — nothing is written, renamed, raised or printed;
* otherwise the received chunks are streamed into
  `target + progress_suffix` (opened with `"wb"`, truncating), and only
  after the body ends normally is the progress file renamed onto
  `target`; a stream cut short leaves the partial progress file in place
  and re-raises. -/
def download (fs : FS) (url target : String) (targetSize : Option Int)
    (progressSuffix : String) (resp : Resp) : DlResult :=
  match resp with
  | .statusError => ⟨fs, false, false, []⟩
  | .stream chunks complete =>
    let tmp := target ++ progressSuffix
    let fs1 := FS.write fs tmp chunks.flatten
    let evs := Ev.barCreate url targetSize :: chunks.map (fun c => Ev.barUpdate c.length)
    if complete then
      ⟨FS.rename fs1 tmp target, true, false, evs ++ [Ev.barSetDesc target]⟩
    else
      ⟨fs1, false, true, evs⟩

/-! ## Feed model and the pipeline driver -/

/-- An `<enclosure>` element's attributes, as strings (the `length`
attribute is parsed with `int(...)` by the driver). -/
structure Enclosure where
  url : String
  length : String
  type_ : String
  deriving DecidableEq, Repr

/-- One `<item>` of a channel, with the elements `download_feed` reads.
(`title`, `guid` and `pubDate` are accessed unconditionally; an absent
`enclosure` is `none`.) -/
structure Item where
  title : String
  guid : String
  pubDate : String
  enclosure : Option Enclosure
  deriving DecidableEq, Repr

/-- One `<channel>` of the feed tree. -/
structure Channel where
  title : String
  items : List Item
  deriving DecidableEq, Repr

/-- `int(s)` for the enclosure `length` attribute: an optional sign
followed by at least one digit (surrounding whitespace and underscore
separators are not modelled). -/
def pyInt (s : String) : Option Int :=
  let core (l : List Char) : Option Nat :=
    if l ≠ [] && l.all Char.isDigit then
      some (l.foldl (fun acc c => acc * 10 + digitVal c) 0)
    else none
  match s.data with
  | '-' :: rest => (core rest).map (fun n => -(n : Int))
  | '+' :: rest => (core rest).map (fun n => (n : Int))
  | l => (core l).map (fun n => (n : Int))

/-- One scheduled download: enclosure URL, computed target filename, and
the declared size passed to `download` as `target_size`. -/
structure DlTask where
  url : String
  target : String
  size : Int
  deriving DecidableEq, Repr

/-- The per-item body of `download_feed`'s inner loop: truncate the
title, parse and normalise `pubDate` (exceptions propagate and abort the
feed), report and skip an item without an enclosure, parse the declared
length, compute the target filename, and schedule a download unless a
file already exists at the target path.  Returns the scheduled task (if
any) and the lines printed. -/
def processItem (fs : FS) (podName : String) (item : Item) :
    Except PyErr (Option DlTask × List String) :=
  match parsed_datetime item.pubDate with
  | .error e => .error e
  | .ok aware =>
    match datetime_in_utc aware with
    | .error e => .error e
    | .ok published =>
      match item.enclosure with
      | none => .ok (none, ["no enclosure"])
      | some enc =>
        match pyInt enc.length with
        | none => .error .valueError
        | some len =>
          if (FS.lookup fs (targetFilenameOf published item.guid podName
              (item.title.take 100) enc.url)).isSome then .ok (none, [])
          else .ok (some ⟨enc.url,
            targetFilenameOf published item.guid podName (item.title.take 100) enc.url,
            len⟩, [])

/-- The item loop of `download_feed` over one channel. -/
def planItems (fs : FS) (podName : String) :
    List Item → Except PyErr (List DlTask × List String)
  | [] => .ok ([], [])
  | item :: rest =>
    match processItem fs podName item with
    | .error e => .error e
    | .ok (task?, out) =>
      match planItems fs podName rest with
      | .error e => .error e
      | .ok (tasks, outs) => .ok (task?.toList ++ tasks, out ++ outs)

/-- The channel loop of `download_feed`: the podcast name is the channel
title truncated to 65 characters. -/
def planChannels (fs : FS) : List Channel → Except PyErr (List DlTask × List String)
  | [] => .ok ([], [])
  | ch :: rest =>
    match planItems fs (ch.title.take 65) ch.items with
    | .error e => .error e
    | .ok (tasks, outs) =>
      match planChannels fs rest with
      | .error e => .error e
      | .ok (tasks', outs') => .ok (tasks ++ tasks', outs ++ outs')

/-- `download_feed` up to the point where the scheduled downloads run:
walk the parsed tree collecting download tasks, then
`await asyncio.wait(episode_tasks)` — which raises `ValueError` when the
task list is empty. -/
def download_feed_plan (fs : FS) (channels : List Channel) :
    Except PyErr (List DlTask × List String) :=
  match planChannels fs channels with
  | .error e => .error e
  | .ok (tasks, outs) =>
    if tasks.isEmpty then .error .waitEmpty
    else .ok (tasks, outs)

/-- Execution of the scheduled downloads, each paired with what the
transport delivers for it.  The event loop is single-threaded and each
task writes only its own target and progress paths, so the concurrent
execution is modelled by running the tasks in order. -/
def runTasks (fs : FS) : List (DlTask × Resp) → FS
  | [] => fs
  | (tk, resp) :: rest =>
    runTasks (download fs tk.url tk.target (some tk.size) ".progress" resp).fs rest

/-! ## Helper lemmas -/

theorem mem_of_lookup_eq_some {l : List (String × Int)} {a : String} {b : Int}
    (h : l.lookup a = some b) : (a, b) ∈ l := by
  induction l with
  | nil => simp [List.lookup] at h
  | cons hd tl ih =>
    rw [List.lookup] at h
    by_cases hak : a = hd.1
    · cases hd with
      | mk k v =>
        subst hak
        simp at h
        subst h
        exact List.mem_cons_self _ _
    · simp [beq_false_of_ne hak] at h
      right
      exact ih h

theorem takeWhile_append_stop {p : Char → Bool} {l1 : List Char} (x : Char) (l2 : List Char)
    (h1 : ∀ a ∈ l1, p a = true) (hx : p x = false) :
    (l1 ++ x :: l2).takeWhile p = l1 := by
  induction l1 with
  | nil => simp [List.takeWhile, hx]
  | cons a as ih =>
    have ha : p a = true := h1 a (List.mem_cons_self a as)
    simp only [List.cons_append, List.takeWhile_cons, ha, if_true]
    rw [ih (fun b hb => h1 b (List.mem_cons_of_mem a hb))]

theorem dropWhile_append_stop {p : Char → Bool} {l1 : List Char} (x : Char) (l2 : List Char)
    (h1 : ∀ a ∈ l1, p a = true) (hx : p x = false) :
    (l1 ++ x :: l2).dropWhile p = x :: l2 := by
  induction l1 with
  | nil => simp [List.dropWhile, hx]
  | cons a as ih =>
    have ha : p a = true := h1 a (List.mem_cons_self a as)
    simp only [List.cons_append, List.dropWhile_cons, ha, if_true]
    exact ih (fun b hb => h1 b (List.mem_cons_of_mem a hb))

/-- `rsplit(sep, 1)` on `w ++ sep ++ r` where `r` is free of `sep` splits
exactly there. -/
theorem rsplitOnce_append (w r : String) (sep : Char)
    (hr : ∀ c ∈ r.data, ¬(c = sep)) :
    rsplitOnce (w ++ String.mk [sep] ++ r) sep = some (w, r) := by
  have hdata : (w ++ String.mk [sep] ++ r).data = w.data ++ sep :: r.data := by
    rw [String.data_append, String.data_append]
    simp
  have hall : ∀ a ∈ r.data.reverse, (fun c => ¬(c = sep) : Char → Bool) a = true := by
    intro a ha
    simp only [decide_eq_true_eq]
    exact fun hEq => hr a (List.mem_reverse.mp ha) hEq
  have hstop : (fun c => ¬(c = sep) : Char → Bool) sep = false := by simp
  unfold rsplitOnce
  rw [hdata]
  have hrev : (w.data ++ sep :: r.data).reverse = r.data.reverse ++ sep :: w.data.reverse := by
    simp
  rw [hrev,
      takeWhile_append_stop sep w.data.reverse hall hstop,
      dropWhile_append_stop sep w.data.reverse hall hstop]
  simp

theorem FS.lookup_remove_ne (fs : FS) (p q : String) (h : ¬(q = p)) :
    FS.lookup (FS.remove fs p) q = FS.lookup fs q := by
  induction fs with
  | nil => simp [FS.remove, FS.lookup]
  | cons hd tl ih =>
    obtain ⟨k, v⟩ := hd
    have hpq : ¬(p = q) := fun hEq => h hEq.symm
    by_cases hkp : k = p
    · have hkq : ¬(k = q) := by
        rw [hkp]
        exact hpq
      simp [FS.remove, FS.lookup, hkp, hkq, hpq, ih]
    · by_cases hkq : k = q <;> simp [FS.remove, FS.lookup, hkp, hkq, hpq, h, ih]

theorem FS.lookup_write_self (fs : FS) (p : String) (v : List Nat) :
    FS.lookup (FS.write fs p v) p = some v := by
  simp [FS.write, FS.lookup]

theorem FS.lookup_write_ne (fs : FS) (p q : String) (v : List Nat) (h : ¬(q = p)) :
    FS.lookup (FS.write fs p v) q = FS.lookup fs q := by
  have hne : ¬(p = q) := fun hEq => h hEq.symm
  rw [FS.write, FS.lookup, if_neg hne]
  exact FS.lookup_remove_ne fs p q h

theorem FS.lookup_remove_self (fs : FS) (p : String) :
    FS.lookup (FS.remove fs p) p = none := by
  induction fs with
  | nil => simp [FS.remove, FS.lookup]
  | cons hd tl ih =>
    obtain ⟨k, v⟩ := hd
    by_cases hkp : k = p <;> simp [FS.remove, FS.lookup, hkp, ih]

theorem FS.lookup_rename_dst (fs : FS) (src dst : String) (v : List Nat)
    (h : FS.lookup fs src = some v) :
    FS.lookup (FS.rename fs src dst) dst = some v := by
  rw [FS.rename, h]
  exact FS.lookup_write_self _ _ _

theorem FS.lookup_rename_other (fs : FS) (src dst q : String)
    (hsrc : ¬(q = src)) (hdst : ¬(q = dst)) :
    FS.lookup (FS.rename fs src dst) q = FS.lookup fs q := by
  rw [FS.rename]
  cases hl : FS.lookup fs src with
  | none => rfl
  | some v =>
    rw [FS.lookup_write_ne _ _ _ _ hdst]
    exact FS.lookup_remove_ne _ _ _ hsrc

/-- A completed download leaves the full body at the final target. -/
theorem download_complete_target (fs : FS) (url target : String)
    (targetSize : Option Int) (progressSuffix : String) (chunks : List (List Nat)) :
    FS.lookup (download fs url target targetSize progressSuffix (.stream chunks true)).fs
      target = some chunks.flatten := by
  simp only [download]
  exact FS.lookup_rename_dst _ _ _ _ (FS.lookup_write_self _ _ _)

/-- A download touches no path other than its own target and progress
paths. -/
theorem download_lookup_untouched (fs : FS) (url target : String)
    (targetSize : Option Int) (progressSuffix : String) (resp : Resp) (q : String)
    (h1 : ¬(q = target)) (h2 : ¬(q = target ++ progressSuffix)) :
    FS.lookup (download fs url target targetSize progressSuffix resp).fs q
      = FS.lookup fs q := by
  cases resp with
  | statusError => rfl
  | stream chunks complete =>
    cases complete with
    | false =>
      simp only [download, if_false]
      exact FS.lookup_write_ne _ _ _ _ h2
    | true =>
      simp only [download, if_true]
      rw [FS.lookup_rename_other _ _ _ _ h2 h1]
      exact FS.lookup_write_ne _ _ _ _ h2

theorem runTasks_append (fs : FS) (l1 l2 : List (DlTask × Resp)) :
    runTasks fs (l1 ++ l2) = runTasks (runTasks fs l1) l2 := by
  induction l1 generalizing fs with
  | nil => rfl
  | cons hd tl ih =>
    obtain ⟨tk, resp⟩ := hd
    simp only [List.cons_append, runTasks]
    exact ih _

/-- Paths not written by any task in the list survive `runTasks`
unchanged. -/
theorem runTasks_preserve (fs : FS) (l : List (DlTask × Resp)) (t : String)
    (h : ∀ p ∈ l, ¬(t = p.1.target) ∧ ¬(t = p.1.target ++ ".progress")) :
    FS.lookup (runTasks fs l) t = FS.lookup fs t := by
  induction l generalizing fs with
  | nil => rfl
  | cons hd tl ih =>
    obtain ⟨tk, resp⟩ := hd
    have hhd := h (tk, resp) (List.mem_cons_self _ _)
    simp only [runTasks]
    rw [ih _ (fun p hp => h p (List.mem_cons_of_mem _ hp))]
    exact download_lookup_untouched _ _ _ _ _ _ _ hhd.1 hhd.2

/-! ## Claims -/

/-- **C1**: the downloader is atomic with respect to the final target
path: the rename happens only for a completely received body (and then
the target holds exactly that body); whenever the rename did not happen
the target path is untouched; a stream cut short leaves the received
prefix in the progress file (it is not cleaned up); and a non-success
HTTP status leaves the filesystem entirely unchanged. -/
theorem download_atomic (fs : FS) (url target : String) (targetSize : Option Int)
    (progressSuffix : String) (resp : Resp)
    (htmp : ¬(target ++ progressSuffix = target)) :
    ((download fs url target targetSize progressSuffix resp).ok = true →
      ∃ chunks, resp = .stream chunks true ∧
        FS.lookup (download fs url target targetSize progressSuffix resp).fs target
          = some chunks.flatten) ∧
    ((download fs url target targetSize progressSuffix resp).ok = false →
      FS.lookup (download fs url target targetSize progressSuffix resp).fs target
        = FS.lookup fs target) ∧
    (∀ chunks, resp = .stream chunks false →
      FS.lookup (download fs url target targetSize progressSuffix resp).fs
        (target ++ progressSuffix) = some chunks.flatten) ∧
    (resp = .statusError → (download fs url target targetSize progressSuffix resp).fs = fs) := by
  have htgt : ¬(target = target ++ progressSuffix) := fun hEq => htmp hEq.symm
  cases resp with
  | statusError =>
    refine ⟨?_, ?_, ?_, ?_⟩
    · intro h
      simp [download] at h
    · intro _
      rfl
    · intro chunks h
      exact absurd h (by simp)
    · intro _
      rfl
  | stream chunks complete =>
    cases complete with
    | false =>
      refine ⟨?_, ?_, ?_, ?_⟩
      · intro h
        simp [download] at h
      · intro _
        simp only [download]
        exact FS.lookup_write_ne _ _ _ _ htgt
      · intro chunks' h
        have hc : chunks' = chunks := by
          cases h
          rfl
        subst hc
        simp only [download]
        exact FS.lookup_write_self _ _ _
      · intro h
        exact absurd h (by simp)
    | true =>
      refine ⟨?_, ?_, ?_, ?_⟩
      · intro _
        exact ⟨chunks, rfl, download_complete_target _ _ _ _ _ _⟩
      · intro h
        simp [download] at h
      · intro chunks' h
        exact absurd h (by simp)
      · intro h
        exact absurd h (by simp)

/-- Witness for **C1** at a concrete run: a two-chunk body downloads to
the final target in full. -/
theorem download_atomic_witness :
    ∃ chunks, Resp.stream [[1, 2], [3]] true = Resp.stream chunks true ∧
      FS.lookup (download [] "u" "t" none ".progress" (.stream [[1, 2], [3]] true)).fs "t"
        = some chunks.flatten :=
  (download_atomic [] "u" "t" none ".progress" (.stream [[1, 2], [3]] true) (by decide)).1 rfl

/-- **C8 counterexample**: a non-success HTTP status on the enclosure
request is handled by `except aiohttp.ClientResponseError: pass` before
the progress bar is even constructed, so — contrary to the claim that
the failure "is reported to output as a diagnostic" — the coroutine
emits no output at all (and leaves no file and raises nothing). -/
theorem status_error_unreported :
    (download [] "http://x/ep.mp3" "t.mp3" (some 1000) ".progress" .statusError).events = []
    ∧ (download [] "http://x/ep.mp3" "t.mp3" (some 1000) ".progress" .statusError).raised
        = false
    ∧ FS.lookup (download [] "http://x/ep.mp3" "t.mp3" (some 1000) ".progress"
        .statusError).fs "t.mp3" = none :=
  ⟨rfl, rfl, rfl⟩

/-- **C8 (amended)**: a non-success HTTP status on the enclosure request
is silently swallowed — no diagnostic output, no exception, no change to
the filesystem (in particular no final file) — and is non-fatal to the
pipeline: deleting the failed task from a run changes nothing for the
other downloads, which proceed identically. -/
theorem status_error_silent_nonfatal :
    (∀ (fs : FS) (url target : String) (targetSize : Option Int) (progressSuffix : String),
      download fs url target targetSize progressSuffix .statusError
        = ⟨fs, false, false, []⟩) ∧
    (∀ (fs : FS) (pre post : List (DlTask × Resp)) (tk : DlTask),
      runTasks fs (pre ++ (tk, Resp.statusError) :: post) = runTasks fs (pre ++ post)) := by
  constructor
  · intro fs url target targetSize progressSuffix
    rfl
  · intro fs pre post tk
    induction pre generalizing fs with
    | nil => rfl
    | cons hd tl ih =>
      obtain ⟨tk', resp'⟩ := hd
      simp only [List.cons_append, runTasks]
      exact ih _

/-- **C5**: every character of `safe_filename`'s output is alphanumeric
or in the fixed allow-list; in particular no path separator (`/` or `\`)
and no control character (code point below 32, or 127) ever appears. -/
theorem safe_filename_chars (s : String) :
    ∀ c ∈ (safe_filename s).data,
      (c.isAlphanum = true ∨ c ∈ additional_chars) ∧
        ¬(c = '/') ∧ ¬(c = '\\') ∧ 32 ≤ c.toNat ∧ ¬(c.toNat = 127) := by
  intro c hc
  simp only [safe_filename, List.mem_filter] at hc
  obtain ⟨-, hkeep⟩ := hc
  have hkeep' : c.isAlphanum = true ∨ c ∈ additional_chars := by
    rcases Bool.or_eq_true_iff.mp hkeep with h | h
    · exact Or.inl h
    · exact Or.inr (by simpa using h)
  refine ⟨hkeep', ?_⟩
  rcases hkeep' with halnum | hlist
  · have hbounds : (48 ≤ c.toNat ∧ c.toNat ≤ 57) ∨ (65 ≤ c.toNat ∧ c.toNat ≤ 90)
        ∨ (97 ≤ c.toNat ∧ c.toNat ≤ 122) := by
      simp only [Char.isAlphanum, Char.isAlpha, Char.isUpper, Char.isLower, Char.isDigit,
        Bool.or_eq_true_iff, Bool.and_eq_true_iff, decide_eq_true_eq] at halnum
      rcases halnum with (h | h) | h
      · exact Or.inr (Or.inl ⟨h.1, h.2⟩)
      · exact Or.inr (Or.inr ⟨h.1, h.2⟩)
      · exact Or.inl ⟨h.1, h.2⟩
    refine ⟨?_, ?_, ?_, ?_⟩
    · intro hEq
      subst hEq
      simp [Char.isAlphanum, Char.isAlpha, Char.isUpper, Char.isLower, Char.isDigit] at halnum
    · intro hEq
      subst hEq
      simp [Char.isAlphanum, Char.isAlpha, Char.isUpper, Char.isLower, Char.isDigit] at halnum
    · omega
    · omega
  · fin_cases hlist <;> refine ⟨by decide, by decide, by decide, by decide⟩

/-- **C6**: `safe_filename` is idempotent. -/
theorem safe_filename_idempotent (s : String) :
    safe_filename (safe_filename s) = safe_filename s := by
  simp only [safe_filename]
  rw [List.filter_filter]
  simp

theorem rsplitOnce_space (w r : String) (hr : ∀ c ∈ r.data, ¬(c = ' ')) :
    rsplitOnce (w ++ " " ++ r) ' ' = some (w, r) :=
  rsplitOnce_append w r ' ' hr

/-- Parsing with the `%z` format on `w ++ " " ++ r` where `r` has no
space: the datetime part must match `w` and the offset part `r`. -/
theorem strptimeTz_split (w r : String) (hr : ∀ c ∈ r.data, ¬(c = ' ')) :
    strptimeTz (w ++ " " ++ r)
      = (strptimeNoTz w).bind
          (fun dt => (parseOffset r).bind (fun off => some { dt with tz := some off })) := by
  unfold strptimeTz
  rw [rsplitOnce_space w r hr]
  rfl

/-- Facts about the eight `TIMEZONES` entries: no abbreviation parses
under `%z`; the numeric rendering of each offset parses back to exactly
that offset; and neither an abbreviation nor a numeric rendering
contains a space. -/
theorem timezones_facts : ∀ p ∈ TIMEZONES,
    parseOffset p.1 = none ∧ parseOffset (renderOffset p.2) = some p.2 ∧
      (∀ c ∈ p.1.data, ¬(c = ' ')) ∧ (∀ c ∈ (renderOffset p.2).data, ¬(c = ' ')) := by
  decide

/-- **C3**: `parsed_datetime` attempts the numeric-offset RFC-822 parse
first and returns its result when it succeeds; when it fails and the
portion before the trailing token parses as an offset-less RFC-822
datetime but the trailing token is not in `TIMEZONES`, the result is
exactly a lookup error (`KeyError`); and whenever the trailing token is
not in `TIMEZONES` and the numeric parse failed the function never
returns a value — in particular it never silently defaults to UTC. -/
theorem parsed_datetime_fallback_spec :
    (∀ ts dt, strptimeTz ts = some dt → parsed_datetime ts = .ok dt) ∧
    (∀ ts rest tzName dt, strptimeTz ts = none →
      rsplitOnce ts ' ' = some (rest, tzName) →
      strptimeNoTz rest = some dt →
      TIMEZONES.lookup tzName = none →
      parsed_datetime ts = .error .keyError) ∧
    (∀ ts rest tzName, strptimeTz ts = none →
      rsplitOnce ts ' ' = some (rest, tzName) →
      TIMEZONES.lookup tzName = none →
      ∀ dt, ¬(parsed_datetime ts = .ok dt)) := by
  refine ⟨?_, ?_, ?_⟩
  · intro ts dt h
    simp only [parsed_datetime, h]
  · intro ts rest tzName dt h1 h2 h3 h4
    simp only [parsed_datetime, h1, h2, h3, h4]
  · intro ts rest tzName h1 h2 h4 dt
    simp only [parsed_datetime, h1, h2]
    cases strptimeNoTz rest with
    | none => simp
    | some dt' => simp [h4]

/-- Witness for **C3**: an unknown trailing abbreviation produces a
`KeyError`, not a default-UTC result. -/
theorem parsed_datetime_fallback_witness :
    parsed_datetime "Wed, 02 Oct 2024 10:00:00 XXX" = .error .keyError :=
  parsed_datetime_fallback_spec.2.1 "Wed, 02 Oct 2024 10:00:00 XXX"
    "Wed, 02 Oct 2024 10:00:00" "XXX" ⟨2024, 10, 2, 10, 0, 0, none⟩
    (by decide) (by decide) (by decide) (by decide)

/-- **C4**: for a wall-clock string `w` that parses under the
offset-less format and a named abbreviation `A` from `TIMEZONES` with
offset `off`, the composition `datetime_in_utc ∘ parsed_datetime` on
`w ++ " " ++ A` yields the same naive UTC instant as on the
numeric-offset equivalent `w ++ " " ++ renderOffset off`. -/
theorem tz_named_matches_numeric (w : String) (f : PyDateTime) (A : String) (off : Int)
    (u : PyDateTime)
    (hw : strptimeNoTz w = some f)
    (hA : TIMEZONES.lookup A = some off)
    (hu : datetime_in_utc { f with tz := some off } = .ok u) :
    (parsed_datetime (w ++ " " ++ A)).bind datetime_in_utc = .ok u ∧
    (parsed_datetime (w ++ " " ++ renderOffset off)).bind datetime_in_utc = .ok u := by
  have hmem := mem_of_lookup_eq_some hA
  obtain ⟨hAnone, hroff, hAnospace, hrnospace⟩ := timezones_facts (A, off) hmem
  constructor
  · have hsplit := strptimeTz_split w A hAnospace
    rw [hw, hAnone] at hsplit
    simp only [Option.some_bind, Option.none_bind] at hsplit
    simp only [parsed_datetime, hsplit, rsplitOnce_space w A hAnospace, hw, hA]
    exact hu
  · have hsplit := strptimeTz_split w (renderOffset off) hrnospace
    rw [hw, hroff] at hsplit
    simp only [Option.some_bind, Option.none_bind] at hsplit
    simp only [parsed_datetime, hsplit]
    exact hu

/-- Witness for **C4**: `"... 10:00:00 EST"` and `"... 10:00:00 -0500"`
both normalise to 15:00:00 UTC of the same day. -/
theorem tz_named_matches_numeric_witness :
    (parsed_datetime ("Wed, 02 Oct 2024 10:00:00" ++ " " ++ "EST")).bind datetime_in_utc
        = .ok ⟨2024, 10, 2, 15, 0, 0, none⟩ ∧
    (parsed_datetime ("Wed, 02 Oct 2024 10:00:00" ++ " " ++ renderOffset (-300))).bind
        datetime_in_utc = .ok ⟨2024, 10, 2, 15, 0, 0, none⟩ :=
  tz_named_matches_numeric "Wed, 02 Oct 2024 10:00:00" ⟨2024, 10, 2, 10, 0, 0, none⟩
    "EST" (-300) ⟨2024, 10, 2, 15, 0, 0, none⟩ (by decide) (by decide) (by decide)

/-- A task is only scheduled by `processItem` when no file exists at its
computed target path. -/
theorem processItem_some_task (fs : FS) (pod : String) (item : Item) (tk : DlTask)
    (out : List String) (h : processItem fs pod item = .ok (some tk, out)) :
    FS.lookup fs tk.target = none := by
  unfold processItem at h
  split at h
  · simp at h
  · split at h
    · simp at h
    · split at h
      · simp at h
      · split at h
        · simp at h
        · split at h
          · simp at h
          · rename_i hex
            cases h
            simpa using Option.not_isSome_iff_eq_none.mp (by simpa using hex)

theorem planItems_fresh (fs : FS) (pod : String) (items : List Item)
    (tasks : List DlTask) (outs : List String)
    (h : planItems fs pod items = .ok (tasks, outs)) :
    ∀ tk ∈ tasks, FS.lookup fs tk.target = none := by
  induction items generalizing tasks outs with
  | nil =>
    simp only [planItems, Except.ok.injEq, Prod.mk.injEq] at h
    rw [← h.1]
    intro tk htk
    simp at htk
  | cons item rest ih =>
    unfold planItems at h
    cases hpi : processItem fs pod item with
    | error e =>
      rw [hpi] at h
      exact absurd h (by simp)
    | ok pr =>
      obtain ⟨task?, out⟩ := pr
      rw [hpi] at h
      cases hpl : planItems fs pod rest with
      | error e =>
        rw [hpl] at h
        exact absurd h (by simp)
      | ok pr' =>
        obtain ⟨tasks', outs'⟩ := pr'
        rw [hpl] at h
        simp only [Except.ok.injEq, Prod.mk.injEq] at h
        rw [← h.1]
        intro tk htk
        rcases List.mem_append.mp htk with hin | hin
        · cases task? with
          | none => simp at hin
          | some tk' =>
            simp only [Option.toList_some, List.mem_singleton] at hin
            subst hin
            exact processItem_some_task fs pod item tk out hpi
        · exact ih tasks' outs' hpl tk hin

theorem planChannels_fresh (fs : FS) (channels : List Channel)
    (tasks : List DlTask) (outs : List String)
    (h : planChannels fs channels = .ok (tasks, outs)) :
    ∀ tk ∈ tasks, FS.lookup fs tk.target = none := by
  induction channels generalizing tasks outs with
  | nil =>
    simp only [planChannels, Except.ok.injEq, Prod.mk.injEq] at h
    rw [← h.1]
    intro tk htk
    simp at htk
  | cons ch rest ih =>
    unfold planChannels at h
    cases hpi : planItems fs (ch.title.take 65) ch.items with
    | error e =>
      rw [hpi] at h
      exact absurd h (by simp)
    | ok pr =>
      obtain ⟨tasks1, outs1⟩ := pr
      rw [hpi] at h
      cases hpl : planChannels fs rest with
      | error e =>
        rw [hpl] at h
        exact absurd h (by simp)
      | ok pr' =>
        obtain ⟨tasks2, outs2⟩ := pr'
        rw [hpl] at h
        simp only [Except.ok.injEq, Prod.mk.injEq] at h
        rw [← h.1]
        intro tk htk
        rcases List.mem_append.mp htk with hin | hin
        · exact planItems_fresh fs _ ch.items tasks1 outs1 hpi tk hin
        · exact ih tasks2 outs2 hpl tk hin

/-- **C2**: (i) every download request issued by `download_feed` is for
a target path at which no file exists — an episode whose computed target
filename is already on disk is skipped entirely, with no request; (ii) a
download of the first run that received a complete body (and whose
target no later task of that run overwrites or renames away) leaves the
file at its target path; (iii) hence on a second run over the resulting
filesystem, no request whatsoever is issued for a target that is now on
disk — zero additional requests for an episode downloaded on the first
run. -/
theorem skip_existing_no_request :
    (∀ (fs : FS) (channels : List Channel) (tasks : List DlTask) (outs : List String),
      download_feed_plan fs channels = .ok (tasks, outs) →
      ∀ tk ∈ tasks, FS.lookup fs tk.target = none) ∧
    (∀ (fs : FS) (pre post : List (DlTask × Resp)) (tk : DlTask) (chunks : List (List Nat)),
      (∀ p ∈ post, ¬(tk.target = p.1.target) ∧ ¬(tk.target = p.1.target ++ ".progress")) →
      FS.lookup (runTasks fs (pre ++ (tk, .stream chunks true) :: post)) tk.target
        = some chunks.flatten) ∧
    (∀ (fs1 : FS) (channels : List Channel) (tasks2 : List DlTask) (outs2 : List String)
        (t : String),
      ¬(FS.lookup fs1 t = none) →
      download_feed_plan fs1 channels = .ok (tasks2, outs2) →
      ∀ tk ∈ tasks2, ¬(tk.target = t)) := by
  have hplan : ∀ (fs : FS) (channels : List Channel) (tasks : List DlTask)
      (outs : List String), download_feed_plan fs channels = .ok (tasks, outs) →
      ∀ tk ∈ tasks, FS.lookup fs tk.target = none := by
    intro fs channels tasks outs h tk htk
    unfold download_feed_plan at h
    split at h
    · simp at h
    · next tasks' outs' heq =>
      split at h
      · simp at h
      · cases h
        exact planChannels_fresh fs channels tasks outs heq tk htk
  refine ⟨hplan, ?_, ?_⟩
  · intro fs pre post tk chunks hpost
    rw [runTasks_append]
    have hhead : FS.lookup
        (runTasks (runTasks fs pre) ((tk, .stream chunks true) :: post)) tk.target
        = FS.lookup ((download (runTasks fs pre) tk.url tk.target (some tk.size)
            ".progress" (.stream chunks true)).fs) tk.target := by
      simp only [runTasks]
      exact runTasks_preserve _ post tk.target hpost
    rw [hhead]
    exact download_complete_target _ _ _ _ _ _
  · intro fs1 channels tasks2 outs2 t hex h tk htk hEq
    exact hex (hEq ▸ hplan fs1 channels tasks2 outs2 h tk htk)

set_option maxRecDepth 8192 in
/-- Witness for **C2**: with episode 1's file already on disk, the plan
schedules only episode 2, and episode 1's target is absent from the
requests. -/
theorem skip_existing_no_request_witness :
    FS.lookup
      [("2024-10-02 15:00:00Z - 900150983cd24fb0d6963f7d28e17f72 - P - A.mp3", [7])]
      (DlTask.mk "http://x/b.mp3"
        "2024-10-02 15:00:00Z - 4ed9407630eb1000c0f6b63842defa7d - P - B.mp3" 9).target
      = none :=
  skip_existing_no_request.1
    [("2024-10-02 15:00:00Z - 900150983cd24fb0d6963f7d28e17f72 - P - A.mp3", [7])]
    [⟨"P", [⟨"A", "abc", "Wed, 02 Oct 2024 10:00:00 EST",
        some ⟨"http://x/a.mp3", "7", "audio/mpeg"⟩⟩,
      ⟨"B", "def", "Wed, 02 Oct 2024 10:00:00 EST",
        some ⟨"http://x/b.mp3", "9", "audio/mpeg"⟩⟩]⟩]
    [⟨"http://x/b.mp3",
      "2024-10-02 15:00:00Z - 4ed9407630eb1000c0f6b63842defa7d - P - B.mp3", 9⟩] []
    (by decide)
    ⟨"http://x/b.mp3",
      "2024-10-02 15:00:00Z - 4ed9407630eb1000c0f6b63842defa7d - P - B.mp3", 9⟩
    (by decide)

/-- An item whose timestamp normalises successfully and that either has
no enclosure or whose computed target file already exists schedules no
task. -/
theorem processItem_skip (fs : FS) (pod : String) (item : Item) (published : PyDateTime)
    (hpub : (parsed_datetime item.pubDate).bind datetime_in_utc = .ok published)
    (hrest : item.enclosure = none ∨
      ∃ enc len, item.enclosure = some enc ∧ pyInt enc.length = some len ∧
        (FS.lookup fs (targetFilenameOf published item.guid pod
          (item.title.take 100) enc.url)).isSome = true) :
    ∃ out, processItem fs pod item = .ok (none, out) := by
  cases hpd : parsed_datetime item.pubDate with
  | error e =>
    rw [hpd] at hpub
    simp [Except.bind] at hpub
  | ok aware =>
    rw [hpd] at hpub
    simp only [Except.bind] at hpub
    rcases hrest with henc | ⟨enc, len, henc, hint, hex⟩
    · exact ⟨["no enclosure"], by simp only [processItem, hpd, hpub, henc]⟩
    · refine ⟨[], ?_⟩
      simp only [processItem, hpd, hpub, henc, hint, hex, if_true]

theorem planItems_skip (fs : FS) (pod : String) (items : List Item)
    (h : ∀ item ∈ items, ∃ out, processItem fs pod item = .ok (none, out)) :
    ∃ outs, planItems fs pod items = .ok ([], outs) := by
  induction items with
  | nil => exact ⟨[], rfl⟩
  | cons item rest ih =>
    obtain ⟨out, hpi⟩ := h item (List.mem_cons_self _ _)
    obtain ⟨outs, hpl⟩ := ih (fun it hit => h it (List.mem_cons_of_mem _ hit))
    exact ⟨out ++ outs, by simp [planItems, hpi, hpl]⟩

theorem planChannels_skip (fs : FS) (channels : List Channel)
    (h : ∀ ch ∈ channels, ∀ item ∈ ch.items,
      ∃ out, processItem fs (ch.title.take 65) item = .ok (none, out)) :
    ∃ outs, planChannels fs channels = .ok ([], outs) := by
  induction channels with
  | nil => exact ⟨[], rfl⟩
  | cons ch rest ih =>
    obtain ⟨outs1, hpi⟩ := planItems_skip fs (ch.title.take 65) ch.items
      (h ch (List.mem_cons_self _ _))
    obtain ⟨outs2, hpl⟩ := ih (fun c hc => h c (List.mem_cons_of_mem _ hc))
    exact ⟨outs1 ++ outs2, by simp [planChannels, hpi, hpl]⟩

/-- **C9**: a feed in which every item is ineligible — its timestamp
normalises, and it either has no enclosure or (its declared length
parses and) a file already exists at its computed target — yields an
empty task list, and `await asyncio.wait(episode_tasks)` then raises
`ValueError` instead of completing cleanly. -/
theorem empty_feed_fails (fs : FS) (channels : List Channel)
    (h : ∀ ch ∈ channels, ∀ item ∈ ch.items,
      ∃ published, (parsed_datetime item.pubDate).bind datetime_in_utc = .ok published ∧
        (item.enclosure = none ∨
          ∃ enc len, item.enclosure = some enc ∧ pyInt enc.length = some len ∧
            (FS.lookup fs (targetFilenameOf published item.guid (ch.title.take 65)
              (item.title.take 100) enc.url)).isSome = true)) :
    download_feed_plan fs channels = .error .waitEmpty := by
  obtain ⟨outs, hpc⟩ := planChannels_skip fs channels (by
    intro ch hch item hitem
    obtain ⟨published, hpub, hrest⟩ := h ch hch item hitem
    exact processItem_skip fs (ch.title.take 65) item published hpub hrest)
  simp [download_feed_plan, hpc]

/-- Witness for **C9**: a one-channel feed whose single item lacks an
enclosure makes the driver fail with the empty-wait error. -/
theorem empty_feed_fails_witness :
    download_feed_plan []
      [⟨"P", [⟨"T", "g", "Wed, 02 Oct 2024 10:00:00 EST", none⟩]⟩] = .error .waitEmpty :=
  empty_feed_fails [] [⟨"P", [⟨"T", "g", "Wed, 02 Oct 2024 10:00:00 EST", none⟩]⟩]
    (by
      intro ch hch item hitem
      simp only [List.mem_singleton] at hch
      subst hch
      simp only [List.mem_singleton] at hitem
      subst hitem
      exact ⟨⟨2024, 10, 2, 15, 0, 0, none⟩, by decide, Or.inl rfl⟩)

theorem keepChar_digitChar (n : Nat) (h : n < 10) : keepChar (Nat.digitChar n) = true := by
  interval_cases n <;> decide

theorem keepChar_hexChar (n : Nat) (h : n < 16) : keepChar (Nat.digitChar n) = true := by
  interval_cases n <;> decide

theorem pad2_keep (n : Nat) : ∀ c ∈ pad2 n, keepChar c = true := by
  intro c hc
  simp only [pad2, List.mem_cons, List.not_mem_nil, or_false] at hc
  rcases hc with h | h <;>
    exact h ▸ keepChar_digitChar _ (Nat.mod_lt _ (by omega))

theorem pad4_keep (n : Nat) : ∀ c ∈ pad4 n, keepChar c = true := by
  intro c hc
  simp only [pad4, List.mem_cons, List.not_mem_nil, or_false] at hc
  rcases hc with h | h | h | h <;>
    exact h ▸ keepChar_digitChar _ (Nat.mod_lt _ (by omega))

theorem consl_keep (ch : Char) (l : List Char) (hch : keepChar ch = true)
    (hl : ∀ c ∈ l, keepChar c = true) : ∀ c ∈ ch :: l, keepChar c = true := by
  intro c hc
  rcases List.mem_cons.mp hc with h | h
  · exact h ▸ hch
  · exact hl c h

theorem append_keep (l1 l2 : List Char) (h1 : ∀ c ∈ l1, keepChar c = true)
    (h2 : ∀ c ∈ l2, keepChar c = true) : ∀ c ∈ l1 ++ l2, keepChar c = true := by
  intro c hc
  rcases List.mem_append.mp hc with h | h
  · exact h1 c h
  · exact h2 c h

theorem iso_keep (dt : PyDateTime) : ∀ c ∈ (isoformatSp dt).data, keepChar c = true := by
  show ∀ c ∈ pad4 dt.year ++ '-' :: pad2 dt.month ++ '-' :: pad2 dt.day
      ++ ' ' :: pad2 dt.hour ++ ':' :: pad2 dt.minute ++ ':' :: pad2 dt.second,
    keepChar c = true
  exact append_keep _ _
    (append_keep _ _
      (append_keep _ _
        (append_keep _ _
          (append_keep _ _ (pad4_keep _)
            (consl_keep '-' _ (by decide) (pad2_keep _)))
          (consl_keep '-' _ (by decide) (pad2_keep _)))
        (consl_keep ' ' _ (by decide) (pad2_keep _)))
      (consl_keep ':' _ (by decide) (pad2_keep _)))
    (consl_keep ':' _ (by decide) (pad2_keep _))

/-- The ISO rendering of a datetime is invariant under `safe_filename`'s
character filter (it consists of digits, `-`, `:` and a space). -/
theorem iso_filter (dt : PyDateTime) :
    (isoformatSp dt).data.filter keepChar = (isoformatSp dt).data :=
  List.filter_eq_self.mpr (iso_keep dt)

/-- The ISO rendering always has exactly 19 characters
(`YYYY-MM-DD HH:MM:SS`). -/
theorem iso_length (dt : PyDateTime) : (isoformatSp dt).data.length = 19 := by
  simp [isoformatSp, pad4, pad2]

theorem hexByte_filter (b : Nat) : (hexByte b).filter keepChar = hexByte b := by
  apply List.filter_eq_self.mpr
  intro c hc
  simp only [hexByte, List.mem_cons, List.not_mem_nil, or_false] at hc
  rcases hc with h | h
  · exact h ▸ keepChar_hexChar _ (Nat.mod_lt _ (by omega))
  · exact h ▸ keepChar_hexChar _ (Nat.mod_lt _ (by omega))

theorem word32Hex_filter (x : Nat) : (word32Hex x).filter keepChar = word32Hex x := by
  simp [word32Hex, List.filter_append, hexByte_filter]

theorem word32Hex_length (x : Nat) : (word32Hex x).length = 8 := by
  simp [word32Hex, hexByte]

/-- An md5 hex digest is invariant under `safe_filename`'s filter. -/
theorem md5_filter (s : String) :
    (md5sum s).data.filter keepChar = (md5sum s).data := by
  simp [md5sum, List.filter_append, word32Hex_filter]

/-- An md5 hex digest has exactly 32 characters. -/
theorem md5_length (s : String) : (md5sum s).data.length = 32 := by
  simp [md5sum, word32Hex_length]

/-- The computed target filename decomposes into the 19-character ISO
timestamp, the literal `"Z - "`, the 32-character digest, and the
remaining (sanitised) components. -/
theorem targetFilename_data (p : PyDateTime) (g pod t u : String) :
    (targetFilenameOf p g pod t u).data
      = (isoformatSp p).data
          ++ ('Z' :: ' ' :: '-' :: ' ' :: ((md5sum g).data
          ++ (' ' :: '-' :: ' ' :: ((pod.data.filter keepChar)
          ++ (' ' :: '-' :: ' ' :: ((t.data.filter keepChar)
          ++ ('.' :: (fileSuffixOf u).data))))))) := by
  simp only [targetFilenameOf, basenameOf, safe_filename, elementsJoined,
    String.data_append, List.filter_append, iso_filter, md5_filter]
  have h1 : ("Z" : String).data.filter keepChar = ['Z'] := by decide
  have h2 : (" - " : String).data.filter keepChar = [' ', '-', ' '] := by decide
  rw [h1, h2]
  simp [List.append_assoc]

/-- **C7**: the md5 hex digest of the guid survives sanitization and sits
at a fixed offset of the computed filename (after the fixed-width ISO
timestamp and the literal `"Z - "`), so two episodes whose digests
differ get different target filenames, whatever their other
attributes. -/
theorem distinct_digests_distinct_filenames (p1 p2 : PyDateTime)
    (g1 g2 pod1 pod2 t1 t2 u1 u2 : String)
    (h : ¬(md5sum g1 = md5sum g2)) :
    ¬(targetFilenameOf p1 g1 pod1 t1 u1 = targetFilenameOf p2 g2 pod2 t2 u2) := by
  intro hEq
  apply h
  have hdata := congrArg String.data hEq
  rw [targetFilename_data, targetFilename_data] at hdata
  have hlen : (isoformatSp p1).data.length = (isoformatSp p2).data.length := by
    rw [iso_length, iso_length]
  obtain ⟨-, htail⟩ := List.append_inj hdata hlen
  simp only [List.cons.injEq, true_and] at htail
  have hlen2 : (md5sum g1).data.length = (md5sum g2).data.length := by
    rw [md5_length, md5_length]
  obtain ⟨hmd, -⟩ := List.append_inj htail hlen2
  exact String.ext hmd

set_option maxRecDepth 8192 in
/-- Witness for **C7**: two guids with different digests, all other
attributes equal, give different filenames. -/
theorem distinct_digests_distinct_filenames_witness :
    ¬(targetFilenameOf ⟨2024, 10, 2, 15, 0, 0, none⟩ "abc" "P" "T" "http://x/a.mp3"
      = targetFilenameOf ⟨2024, 10, 2, 15, 0, 0, none⟩ "def" "P" "T" "http://x/a.mp3") :=
  distinct_digests_distinct_filenames ⟨2024, 10, 2, 15, 0, 0, none⟩
    ⟨2024, 10, 2, 15, 0, 0, none⟩ "abc" "def" "P" "P" "T" "T"
    "http://x/a.mp3" "http://x/a.mp3" (by decide)

theorem rsplitOnce_eq_none (s : String) (sep : Char) (h : ∀ c ∈ s.data, ¬(c = sep)) :
    rsplitOnce s sep = none := by
  unfold rsplitOnce
  have hnil : s.data.reverse.dropWhile (fun c => ¬(c = sep)) = [] := by
    rw [List.dropWhile_eq_nil_iff]
    intro x hx
    simpa using h x (List.mem_reverse.mp hx)
  rw [hnil]

set_option maxRecDepth 8192 in
/-- **C10**: the derived file suffix is the unsanitized URL path after
its last period — for a URL whose path has no period it is the whole
path — so the composed target filename can contain a path separator even
though the sanitized basename never can: the concrete episode with
enclosure URL `http://example.com/noext` gets a target filename
containing `/`. -/
theorem url_suffix_unsanitized :
    (∀ url : String, (∀ c ∈ (pyUrlparsePath url).data, ¬(c = '.')) →
      fileSuffixOf url = pyUrlparsePath url) ∧
    (∀ (p : PyDateTime) (g pod t : String), ∀ c ∈ (basenameOf p g pod t).data,
      ¬(c = '/')) ∧
    ('/' ∈ (targetFilenameOf ⟨2024, 10, 2, 15, 0, 0, none⟩ "g" "pod" "title"
      "http://example.com/noext").data) := by
  refine ⟨?_, ?_, ?_⟩
  · intro url h
    unfold fileSuffixOf
    rw [rsplitOnce_eq_none _ _ h]
  · intro p g pod t c hc hEq
    subst hEq
    simp only [basenameOf, safe_filename] at hc
    have hk := (List.mem_filter.mp hc).2
    exact absurd hk (by decide)
  · decide

set_option maxRecDepth 8192 in
/-- Witness for **C10**: a URL whose path has no period gets the whole
path — separator included — as its suffix. -/
theorem url_suffix_unsanitized_witness :
    fileSuffixOf "http://x/ab" = pyUrlparsePath "http://x/ab" :=
  url_suffix_unsanitized.1 "http://x/ab" (by decide)

/-- Witness for **C5**: the character kept from a concrete input indeed
satisfies the allow-list and separator/control guarantees. -/
theorem safe_filename_chars_witness :
    'a' ∈ (safe_filename "a/b").data ∧
      ((('a' : Char).isAlphanum = true ∨ 'a' ∈ additional_chars) ∧ ¬('a' = '/') ∧
        ¬('a' = '\\') ∧ 32 ≤ ('a' : Char).toNat ∧ ¬(('a' : Char).toNat = 127)) :=
  ⟨by decide, safe_filename_chars "a/b" 'a' (by decide)⟩
